import Mathlib

/-
Verification of `pulpcore/download/context.py` (classes `Cache`, `Item`,
`Context`) against its natural-language specification.

Modelling conventions, stated once here:

* Python `dict` (CPython >= 3.7) is modelled as an insertion-ordered
  association list with unique keys.  Assigning to an existing key replaces
  the value in place; assigning a new key appends at the end; `pop` removes
  the first (unique) entry with the key.
* CPython dict iterators detect size changes: every call to `next()` compares
  the dict's current size with the size recorded when the iterator was
  created, and raises `RuntimeError` ("dictionary changed size during
  iteration") on mismatch.  `Cache.evict` iterates the live
  `self._inventory.items()` view and calls `self.purge(key)` mid-iteration,
  so this check is load-bearing and is modelled faithfully (`evictLoop`
  carries the size `n0` recorded at iterator creation).
* `datetime.utcnow()` timestamps are modelled as `Int` seconds; `timedelta`
  values likewise (the default `timedelta(hours=4)` is `14400`).  Each
  top-level operation takes the current time `now` explicitly; the two
  `utcnow()` reads inside one `get` call (in `touch` and in `evict`) are
  modelled as the same instant.
* `Item.busy` is derived in the source from `sys.getrefcount(self.object)`.
  Reference counting is a property of the payload object at observation
  time, so it is modelled as a function `g : α → Int` giving the refcount
  observation `sys.getrefcount(obj)` for each payload during the sweep;
  `ref_count = g obj - 2` and `busy = ref_count > 0` exactly as in the
  source.
* The `RLock`s: `Cache._lock` only serialises threads and is invisible to
  this single-thread functional model.  `Context`'s `MUTEX` is modelled
  explicitly (as a hold-depth counter) because the claims are about which
  property writes happen under it; each write is recorded as a ghost
  `WriteEvent` carrying the mutex hold depth at write time.
* Exceptions (`KeyError`, `LookupError`, `RuntimeError`, `AttributeError`)
  are modelled with `Except`; the cache/context state at the moment the
  exception propagates is returned alongside, since mutations already
  performed persist in Python.
-/

namespace Pulp

/-- Python exception kinds raised by the modelled code. -/
inductive PyErr where
  | keyError
  | lookupError
  | runtimeError
  | attributeError
deriving DecidableEq, Repr

instance {ε σ : Type} [DecidableEq ε] [DecidableEq σ] :
    DecidableEq (Except ε σ) := fun a b =>
  match a, b with
  | Except.ok x, Except.ok y =>
    if h : x = y then isTrue (by rw [h])
    else isFalse (fun hh => h (by injection hh))
  | Except.error x, Except.error y =>
    if h : x = y then isTrue (by rw [h])
    else isFalse (fun hh => h (by injection hh))
  | Except.ok _, Except.error _ => isFalse (fun hh => Except.noConfusion hh)
  | Except.error _, Except.ok _ => isFalse (fun hh => Except.noConfusion hh)

section Dict

variable {κ β : Type} [DecidableEq κ]

/-- Python `d[k]` lookup (first entry with the key, `none` when absent). -/
def dictGet : List (κ × β) → κ → Option β
  | [], _ => none
  | (k', v) :: rest, k => if k' = k then some v else dictGet rest k

/-- Python `d[k] = v`: replace the value in place when the key is present,
otherwise append the new binding at the end (CPython insertion order). -/
def dictSet : List (κ × β) → κ → β → List (κ × β)
  | [], k, v => [(k, v)]
  | (k', v') :: rest, k, v =>
    if k' = k then (k, v) :: rest else (k', v') :: dictSet rest k v

/-- Python `d.pop(k)` without default: the removed value and the remaining
dict, or `none` (a `KeyError` at the call site) when the key is absent. -/
def dictPop : List (κ × β) → κ → Option (β × List (κ × β))
  | [], _ => none
  | (k', v') :: rest, k =>
    if k' = k then some (v', rest)
    else
      match dictPop rest k with
      | some (v, rest') => some (v, (k', v') :: rest')
      | none => none

/-- The dict invariant: keys occur at most once. -/
def keysNodup (l : List (κ × β)) : Prop := (l.map Prod.fst).Nodup

instance (l : List (κ × β)) : Decidable (keysNodup l) := by
  unfold keysNodup; infer_instance

end Dict

/-- A cached item (class `Item`): the last-requested UTC timestamp and the
cached payload.  The constructor sets `last_requested` via `touch()`, i.e.
to the current time. -/
structure Item (α : Type) where
  last_requested : Int
  object : α
deriving DecidableEq, Repr

/-- Item.ref_count: `sys.getrefcount(self.object) - 2`, where `g` is the
refcount observation for each payload at this instant (see header). -/
def Item.ref_count (g : α → Int) (it : Item α) : Int := g it.object - 2

/-- Item.busy: `ref_count > 0`. -/
def Item.busy (g : α → Int) (it : Item α) : Bool :=
  decide (0 < Item.ref_count g it)

/-- Item.touch: set `last_requested` to the current time. -/
def Item.touch (it : Item α) (now : Int) : Item α :=
  { it with last_requested := now }

/-- The cache (class `Cache`): eviction threshold and the key-to-item
inventory dict. -/
structure Cache (κ α : Type) where
  eviction_threshold : Int
  inventory : List (κ × Item α)
deriving DecidableEq, Repr

variable {κ α : Type} [DecidableEq κ]

/-- Cache.__init__: `eviction_threshold or timedelta(hours=4)` — a `None`
argument or a falsy zero duration selects the 4-hour default. -/
def Cache.init (eviction_threshold : Option Int) : Cache κ α :=
  { eviction_threshold :=
      match eviction_threshold with
      | none => 14400
      | some t => if t = 0 then 14400 else t
    inventory := [] }

/-- Cache.put: `self._inventory[key] = Item(object_)`; the fresh item's
constructor touches it, so `last_requested = now`. -/
def Cache.put (c : Cache κ α) (key : κ) (object : α) (now : Int) : Cache κ α :=
  { c with inventory := dictSet c.inventory key ⟨now, object⟩ }

/-- Cache.purge: `return self._inventory.pop(key)` — note that the popped
value is the `Item` wrapper itself, and an absent key raises `KeyError`. -/
def Cache.purge (c : Cache κ α) (key : κ) : Except PyErr (Item α) × Cache κ α :=
  match dictPop c.inventory key with
  | some (it, inv') => (Except.ok it, { c with inventory := inv' })
  | none => (Except.error PyErr.keyError, c)

/-- Cache.__contains__: `key in self._inventory` (no touch, no sweep). -/
def Cache.contains (c : Cache κ α) (key : κ) : Bool :=
  (dictGet c.inventory key).isSome

/-- The body of `Cache.evict`'s `for key, item in self._inventory.items()`
loop.  `snapshot` is the sequence of entries the iterator yields (the dict's
order at iterator creation), `n0` the dict size recorded by the iterator,
`inv` the live dict and `acc` the reversed `evicted` accumulator.  Before
yielding each entry — and when deciding to stop — CPython's iterator
compares the live size with `n0` and raises `RuntimeError` on mismatch.
Per entry, in source order: a busy item is skipped (the `busy` list is only
logged, so it is not carried here); an item with
`now - item.last_requested < eviction_threshold` is skipped; otherwise the
key is purged from the live dict and `item.object` appended to `evicted`. -/
def evictLoop (g : α → Int) (thr now : Int) (n0 : Nat) :
    List (κ × Item α) → List (κ × Item α) → List α →
    Except PyErr (List α) × List (κ × Item α)
  | [], inv, acc =>
    if inv.length = n0 then (Except.ok acc.reverse, inv)
    else (Except.error PyErr.runtimeError, inv)
  | (key, item) :: rest, inv, acc =>
    if inv.length = n0 then
      if Item.busy g item then
        evictLoop g thr now n0 rest inv acc
      else if now - item.last_requested < thr then
        evictLoop g thr now n0 rest inv acc
      else
        match dictPop inv key with
        | some (_, inv2) => evictLoop g thr now n0 rest inv2 (item.object :: acc)
        | none => (Except.error PyErr.keyError, inv)
    else (Except.error PyErr.runtimeError, inv)

/-- Cache.evict: sweep the inventory, returning the evicted objects, or the
exception that escaped the loop, together with the resulting cache state. -/
def Cache.evict (c : Cache κ α) (g : α → Int) (now : Int) :
    Except PyErr (List α) × Cache κ α :=
  let r := evictLoop g c.eviction_threshold now c.inventory.length
      c.inventory c.inventory []
  (r.1, { c with inventory := r.2 })

/-- Cache.get: look the key up (`LookupError` when absent — the state is
untouched in that case), `item.touch()`, run `self.evict()` (whose exception,
if any, propagates), then return `item.object`. -/
def Cache.get (c : Cache κ α) (g : α → Int) (now : Int) (key : κ) :
    Except PyErr α × Cache κ α :=
  match dictGet c.inventory key with
  | none => (Except.error PyErr.lookupError, c)
  | some item =>
    let touched := Item.touch item now
    let c1 : Cache κ α := { c with inventory := dictSet c.inventory key touched }
    let r := c1.evict g now
    match r.1 with
    | Except.ok _ => (Except.ok touched.object, r.2)
    | Except.error e => (Except.error e, r.2)

/-- The decision `Cache.evict` makes for one inventory entry: evict exactly
when the item is not busy and `now - last_requested < threshold` fails. -/
def shouldEvict (g : α → Int) (thr now : Int) (it : Item α) : Bool :=
  !(Item.busy g it) && !(decide (now - it.last_requested < thr))

/-- A value stored in a `Context` instance's `__dict__`: a caller-supplied
property value, the `RLock` stored under `'MUTEX'`, or the fresh `Cache`
stored under `'cache'`. -/
inductive CtxVal (α : Type) where
  | user : α → CtxVal α
  | lockObj : CtxVal α
  | cacheObj : CtxVal α
deriving DecidableEq, Repr

/-- Ghost record of one instance-attribute write: the attribute name and the
`MUTEX` hold depth at the moment of the write (`0` means the write did not
happen under the mutex). -/
structure WriteEvent where
  name : String
  heldDepth : Nat
deriving DecidableEq, Repr

/-- The download context (class `Context`): its instance `__dict__` (holding
caller properties and the reserved `'MUTEX'` and `'cache'` entries in the
same namespace) and the reentrant mutex's hold depth. -/
structure Context (α : Type) where
  dict : List (String × CtxVal α)
  mutexDepth : Nat
deriving Repr

/-- Context.__init__: `self.__dict__.update(properties)` followed by
`self.__dict__['MUTEX'] = RLock()` and `self.__dict__['cache'] = Cache()`.
All three are raw `__dict__` writes — they do not go through `__setattr__`,
and the mutex (which does not exist until the second write) is not held, so
every emitted `WriteEvent` carries hold depth `0`. -/
def Context.init (properties : List (String × α)) : Context α × List WriteEvent :=
  let d0 := properties.foldl (fun d p => dictSet d p.1 (CtxVal.user p.2)) []
  let d1 := dictSet d0 "MUTEX" CtxVal.lockObj
  let d2 := dictSet d1 "cache" CtxVal.cacheObj
  (⟨d2, 0⟩, properties.map (fun p => ⟨p.1, 0⟩) ++ [⟨"MUTEX", 0⟩, ⟨"cache", 0⟩])

/-- Context.__setattr__: `with self._mutex: super().__setattr__(key, value)`.
The mutex is acquired (depth + 1), the write happens through
`object.__setattr__`, and the mutex is released.  For the name `_mutex` the
class defines a getter-only property, so `object.__setattr__` raises
`AttributeError` and no write occurs; any other name is written into the
instance `__dict__`, and the emitted `WriteEvent` records the hold depth at
write time (at least 1). -/
def Context.setattr (c : Context α) (name : String) (v : α) :
    Except PyErr Unit × Context α × List WriteEvent :=
  let depth := c.mutexDepth + 1
  if name = "_mutex" then
    (Except.error PyErr.attributeError, { c with mutexDepth := depth - 1 }, [])
  else
    (Except.ok (),
      { dict := dictSet c.dict name (CtxVal.user v), mutexDepth := depth - 1 },
      [{ name := name, heldDepth := depth }])

/-- Reading an attribute of a `Context`.  Python's lookup consults the class
first: the only data descriptor the class defines is the property `_mutex`,
which returns `self.__dict__['MUTEX']`.  Any other name is looked up in the
instance `__dict__` and, when absent, raises `AttributeError`.  (The class's
methods — `__enter__`, `__exit__`, ... — are outside the modelled attribute
surface.) -/
def Context.getattr (c : Context α) (name : String) : Except PyErr (CtxVal α) :=
  if name = "_mutex" then
    match dictGet c.dict "MUTEX" with
    | some v => Except.ok v
    | none => Except.error PyErr.keyError
  else
    match dictGet c.dict name with
    | some v => Except.ok v
    | none => Except.error PyErr.attributeError

/-- Context.__enter__: `self._mutex.acquire()`. -/
def Context.enter (c : Context α) : Context α :=
  { c with mutexDepth := c.mutexDepth + 1 }

/-- Context.__exit__: `self._mutex.release()`. -/
def Context.exit (c : Context α) : Context α :=
  { c with mutexDepth := c.mutexDepth - 1 }

/-- Run a sequence of attribute assignments (`Context.setattr`) on a context,
collecting the ghost write events. -/
def Context.runSets (c : Context α) :
    List (String × α) → Context α × List WriteEvent
  | [] => (c, [])
  | (n, v) :: rest =>
    let s := Context.setattr c n v
    let r := Context.runSets s.2.1 rest
    (r.1, s.2.2 ++ r.2)

/-- Dynamic view of a Python value, used to compare what `Cache.purge` hands
back with the payload that was `put`.  Python's return channel is untyped: a
caller receives one object, which may be a bare payload or an `Item`
instance (with its `last_requested` and `object` fields). -/
inductive PyObj where
  | payload : Nat → PyObj
  | itemObj : Int → PyObj → PyObj
deriving DecidableEq, Repr

/-- Render an `Item` whose payloads are dynamic values as the dynamic value
the Python runtime would hand to a caller (the `Item` instance itself). -/
def Item.asPyObj (it : Item PyObj) : PyObj :=
  PyObj.itemObj it.last_requested it.object

section DictLemmas

variable {κ β : Type} [DecidableEq κ]

theorem dictGet_dictSet_self (l : List (κ × β)) (k : κ) (v : β) :
    dictGet (dictSet l k v) k = some v := by
  induction l with
  | nil => simp [dictSet, dictGet]
  | cons hd tl ih =>
    obtain ⟨k', v'⟩ := hd
    by_cases h : k' = k
    · simp [dictSet, h, dictGet]
    · simp [dictSet, h, dictGet, ih]

theorem dictGet_none_of_not_mem_keys {l : List (κ × β)} {k : κ}
    (h : k ∉ l.map Prod.fst) : dictGet l k = none := by
  induction l with
  | nil => rfl
  | cons hd tl ih =>
    obtain ⟨k', v'⟩ := hd
    simp only [List.map_cons, List.mem_cons, not_or] at h
    rw [dictGet, if_neg (fun hh => h.1 hh.symm)]
    exact ih h.2

theorem mem_keys_dictSet {l : List (κ × β)} {k a : κ} {v : β}
    (h : a ∈ (dictSet l k v).map Prod.fst) : a = k ∨ a ∈ l.map Prod.fst := by
  induction l with
  | nil => simpa [dictSet] using h
  | cons hd tl ih =>
    obtain ⟨k', v'⟩ := hd
    by_cases hk : k' = k
    · subst hk
      simpa [dictSet] using h
    · rw [dictSet, if_neg hk] at h
      simp only [List.map_cons, List.mem_cons] at h ⊢
      rcases h with rfl | h2
      · exact Or.inr (Or.inl rfl)
      · rcases ih h2 with rfl | h3
        · exact Or.inl rfl
        · exact Or.inr (Or.inr h3)

theorem keysNodup_dictSet {l : List (κ × β)} (k : κ) (v : β)
    (h : keysNodup l) : keysNodup (dictSet l k v) := by
  induction l with
  | nil => simp [dictSet, keysNodup]
  | cons hd tl ih =>
    obtain ⟨k', v'⟩ := hd
    simp only [keysNodup, List.map_cons, List.nodup_cons] at h
    by_cases hk : k' = k
    · subst hk
      rw [dictSet, if_pos rfl]
      simp only [keysNodup, List.map_cons, List.nodup_cons]
      exact ⟨h.1, h.2⟩
    · have htl := ih h.2
      simp only [dictSet, if_neg hk, keysNodup, List.map_cons, List.nodup_cons]
      refine ⟨fun hmem => ?_, htl⟩
      rcases mem_keys_dictSet hmem with rfl | hmem2
      · exact hk rfl
      · exact h.1 hmem2

theorem dictPop_length {l : List (κ × β)} {k : κ} {v : β} {l' : List (κ × β)}
    (h : dictPop l k = some (v, l')) : l'.length + 1 = l.length := by
  induction l generalizing v l' with
  | nil => simp [dictPop] at h
  | cons hd tl ih =>
    obtain ⟨k', v'⟩ := hd
    by_cases hk : k' = k
    · rw [dictPop, if_pos hk] at h
      obtain ⟨rfl, rfl⟩ : v' = v ∧ tl = l' := by simpa using h
      simp
    · rw [dictPop, if_neg hk] at h
      cases hpop : dictPop tl k with
      | none => rw [hpop] at h; exact absurd h (by simp)
      | some p =>
        obtain ⟨v₂, tl₂⟩ := p
        rw [hpop] at h
        obtain ⟨rfl, rfl⟩ : v₂ = v ∧ (k', v') :: tl₂ = l' := by simpa using h
        have := ih hpop
        simp only [List.length_cons]
        omega

theorem dictPop_mem_of_ne {l : List (κ × β)} {key : κ} {v : β}
    {l' : List (κ × β)} (h : dictPop l key = some (v, l')) {a : κ} {b : β}
    (hmem : (a, b) ∈ l) (hne : a ≠ key) : (a, b) ∈ l' := by
  induction l generalizing v l' with
  | nil => simp [dictPop] at h
  | cons hd tl ih =>
    obtain ⟨k', v'⟩ := hd
    by_cases hk : k' = key
    · rw [dictPop, if_pos hk] at h
      obtain ⟨rfl, rfl⟩ : v' = v ∧ tl = l' := by simpa using h
      rcases List.mem_cons.mp hmem with heq | htl
      · obtain ⟨rfl, rfl⟩ := Prod.mk.injEq .. ▸ heq
        exact absurd hk hne
      · exact htl
    · rw [dictPop, if_neg hk] at h
      cases hpop : dictPop tl key with
      | none => rw [hpop] at h; exact absurd h (by simp)
      | some p =>
        obtain ⟨v₂, tl₂⟩ := p
        rw [hpop] at h
        obtain ⟨rfl, rfl⟩ : v₂ = v ∧ (k', v') :: tl₂ = l' := by simpa using h
        rcases List.mem_cons.mp hmem with heq | htl
        · exact heq ▸ List.mem_cons_self _ _
        · exact List.mem_cons_of_mem _ (ih hpop htl)

theorem dictPop_nodup_get_none {l : List (κ × β)} {k : κ} {v : β}
    {l' : List (κ × β)} (hnd : keysNodup l) (h : dictPop l k = some (v, l')) :
    dictGet l' k = none := by
  induction l generalizing v l' with
  | nil => simp [dictPop] at h
  | cons hd tl ih =>
    obtain ⟨k', v'⟩ := hd
    simp only [keysNodup, List.map_cons, List.nodup_cons] at hnd
    by_cases hk : k' = k
    · rw [dictPop, if_pos hk] at h
      obtain ⟨rfl, rfl⟩ : v' = v ∧ tl = l' := by simpa using h
      subst hk
      exact dictGet_none_of_not_mem_keys hnd.1
    · rw [dictPop, if_neg hk] at h
      cases hpop : dictPop tl k with
      | none => rw [hpop] at h; exact absurd h (by simp)
      | some p =>
        obtain ⟨v₂, tl₂⟩ := p
        rw [hpop] at h
        obtain ⟨rfl, rfl⟩ : v₂ = v ∧ (k', v') :: tl₂ = l' := by simpa using h
        rw [dictGet, if_neg hk]
        exact ih hnd.2 hpop

theorem dictPop_dictSet_self (l : List (κ × β)) (k : κ) (v : β) :
    ∃ l', dictPop (dictSet l k v) k = some (v, l') := by
  induction l with
  | nil => exact ⟨[], by simp [dictSet, dictPop]⟩
  | cons hd tl ih =>
    obtain ⟨k', v'⟩ := hd
    by_cases hk : k' = k
    · exact ⟨tl, by simp [dictSet, hk, dictPop]⟩
    · obtain ⟨l₀, hl₀⟩ := ih
      refine ⟨(k', v') :: l₀, ?_⟩
      rw [dictSet, if_neg hk, dictPop, if_neg hk, hl₀]

theorem dictPop_append_of_not_mem (pre : List (κ × β)) (k : κ) (it : β)
    (post : List (κ × β)) (h : k ∉ pre.map Prod.fst) :
    dictPop (pre ++ (k, it) :: post) k = some (it, pre ++ post) := by
  induction pre with
  | nil => simp [dictPop]
  | cons hd tl ih =>
    obtain ⟨k', v'⟩ := hd
    simp only [List.map_cons, List.mem_cons, not_or] at h
    rw [List.cons_append, dictPop, if_neg (fun hh => h.1 hh.symm),
      ih h.2, List.cons_append]

theorem dictGet_of_mem_nodup {l : List (κ × β)} (hnd : keysNodup l)
    {k : κ} {a : β} (ha : (k, a) ∈ l) : dictGet l k = some a := by
  induction l with
  | nil => simp at ha
  | cons hd tl ih =>
    obtain ⟨k', v'⟩ := hd
    simp only [keysNodup, List.map_cons, List.nodup_cons] at hnd
    rcases List.mem_cons.mp ha with heq | htl
    · obtain ⟨rfl, rfl⟩ : k = k' ∧ a = v' := by simpa using heq
      simp [dictGet]
    · by_cases hk : k' = k
      · subst hk
        exact absurd (List.mem_map_of_mem Prod.fst htl) hnd.1
      · rw [dictGet, if_neg hk]
        exact ih hnd.2 htl

theorem keysNodup_mem_unique {l : List (κ × β)} (hnd : keysNodup l)
    {k : κ} {a b : β} (ha : (k, a) ∈ l) (hb : (k, b) ∈ l) : a = b := by
  have h1 := dictGet_of_mem_nodup hnd ha
  have h2 := dictGet_of_mem_nodup hnd hb
  rw [h1] at h2
  exact Option.some.inj h2

theorem dictPop_none_of_get_none {l : List (κ × β)} {k : κ}
    (h : dictGet l k = none) : dictPop l k = none := by
  induction l with
  | nil => rfl
  | cons hd tl ih =>
    obtain ⟨k', v'⟩ := hd
    by_cases hk : k' = k
    · rw [dictGet, if_pos hk] at h
      exact absurd h (by simp)
    · rw [dictGet, if_neg hk] at h
      rw [dictPop, if_neg hk, ih h]

end DictLemmas

section EvictLemmas

variable {κ α : Type} [DecidableEq κ]

theorem evictLoop_len_ne (g : α → Int) (thr now : Int) (n0 : Nat)
    (snapshot inv : List (κ × Item α)) (acc : List α) (h : inv.length ≠ n0) :
    evictLoop g thr now n0 snapshot inv acc
      = (Except.error PyErr.runtimeError, inv) := by
  cases snapshot with
  | nil => rw [evictLoop, if_neg h]
  | cons hd tl =>
    obtain ⟨key, item⟩ := hd
    rw [evictLoop, if_neg h]

theorem evictLoop_mem_preserved (g : α → Int) (thr now : Int) (n0 : Nat)
    (k : κ) (it : Item α) (hs : shouldEvict g thr now it = false) :
    ∀ (snapshot inv : List (κ × Item α)) (acc : List α),
      (∀ it₂ : Item α, (k, it₂) ∈ snapshot → it₂ = it) → (k, it) ∈ inv →
      (k, it) ∈ (evictLoop g thr now n0 snapshot inv acc).2 := by
  intro snapshot
  induction snapshot with
  | nil =>
    intro inv acc _ hmem
    by_cases hlen : inv.length = n0
    · rw [evictLoop, if_pos hlen]; exact hmem
    · rw [evictLoop, if_neg hlen]; exact hmem
  | cons hd tl ih =>
    obtain ⟨key, item⟩ := hd
    intro inv acc hsnap hmem
    by_cases hlen : inv.length = n0
    case neg => rw [evictLoop, if_neg hlen]; exact hmem
    rw [evictLoop, if_pos hlen]
    by_cases hbusy : Item.busy g item
    · rw [if_pos hbusy]
      exact ih inv acc (fun it₂ h₂ => hsnap it₂ (List.mem_cons_of_mem _ h₂)) hmem
    · rw [if_neg hbusy]
      by_cases hdur : now - item.last_requested < thr
      · rw [if_pos hdur]
        exact ih inv acc (fun it₂ h₂ => hsnap it₂ (List.mem_cons_of_mem _ h₂)) hmem
      · rw [if_neg hdur]
        have hkne : k ≠ key := by
          intro heq
          have hit : item = it := hsnap item (heq ▸ List.mem_cons_self _ _)
          subst hit
          simp only [Bool.not_eq_true] at hbusy
          rw [shouldEvict, hbusy] at hs
          simp [hdur] at hs
        cases hpop : dictPop inv key with
        | none => exact hmem
        | some p =>
          obtain ⟨popped, inv2⟩ := p
          exact ih inv2 _ (fun it₂ h₂ => hsnap it₂ (List.mem_cons_of_mem _ h₂))
            (dictPop_mem_of_ne hpop hmem hkne)

theorem evictLoop_ok_not_busy_obj (g : α → Int) (thr now : Int) (n0 : Nat)
    (obj : α) (hb : 0 < g obj - 2) :
    ∀ (snapshot inv : List (κ × Item α)) (acc : List α), obj ∉ acc →
      ∀ lst, (evictLoop g thr now n0 snapshot inv acc).1 = Except.ok lst →
      obj ∉ lst := by
  intro snapshot
  induction snapshot with
  | nil =>
    intro inv acc hacc lst h
    by_cases hlen : inv.length = n0
    · rw [evictLoop, if_pos hlen] at h
      obtain rfl : acc.reverse = lst := by simpa using h
      simpa using hacc
    · rw [evictLoop, if_neg hlen] at h
      exact absurd h (by simp)
  | cons hd tl ih =>
    obtain ⟨key, item⟩ := hd
    intro inv acc hacc lst h
    by_cases hlen : inv.length = n0
    case neg =>
      rw [evictLoop, if_neg hlen] at h
      exact absurd h (by simp)
    rw [evictLoop, if_pos hlen] at h
    by_cases hbusy : Item.busy g item
    · rw [if_pos hbusy] at h
      exact ih inv acc hacc lst h
    · rw [if_neg hbusy] at h
      by_cases hdur : now - item.last_requested < thr
      · rw [if_pos hdur] at h
        exact ih inv acc hacc lst h
      · rw [if_neg hdur] at h
        cases hpop : dictPop inv key with
        | none =>
          rw [hpop] at h
          exact absurd h (by simp)
        | some p =>
          obtain ⟨popped, inv2⟩ := p
          rw [hpop] at h
          have hne : obj ≠ item.object := by
            intro heq
            have hnb : ¬ (0 < g item.object - 2) := by
              simpa [Item.busy, Item.ref_count] using hbusy
            rw [← heq] at hnb
            exact hnb hb
          refine ih inv2 (item.object :: acc) ?_ lst h
          simp only [List.mem_cons, not_or]
          exact ⟨hne, hacc⟩

theorem evictLoop_first_evicted (g : α → Int) (thr now : Int) (n0 : Nat)
    (k : κ) (it : Item α) (hb : Item.busy g it = false)
    (hdur : ¬ (now - it.last_requested < thr)) :
    ∀ (pre post inv : List (κ × Item α)) (acc : List α) (v : Item α)
      (inv2 : List (κ × Item α)),
      (∀ p ∈ pre, shouldEvict g thr now p.2 = false) →
      inv.length = n0 → 0 < n0 →
      dictPop inv k = some (v, inv2) →
      (evictLoop g thr now n0 (pre ++ (k, it) :: post) inv acc).2 = inv2 := by
  intro pre
  induction pre with
  | nil =>
    intro post inv acc v inv2 _ hlen hn0 hpop
    rw [List.nil_append, evictLoop, if_pos hlen, if_neg (by simp [hb]),
      if_neg hdur, hpop]
    show (evictLoop g thr now n0 post inv2 (it.object :: acc)).2 = inv2
    have hlen2 : inv2.length ≠ n0 := by
      have := dictPop_length hpop
      omega
    rw [evictLoop_len_ne g thr now n0 post inv2 _ hlen2]
  | cons hd2 tl ih =>
    obtain ⟨k₁, it₁⟩ := hd2
    intro post inv acc v inv2 hpre hlen hn0 hpop
    rw [List.cons_append, evictLoop, if_pos hlen]
    have h₁ : shouldEvict g thr now it₁ = false :=
      hpre (k₁, it₁) (List.mem_cons_self _ _)
    by_cases hbusy : Item.busy g it₁
    · rw [if_pos hbusy]
      exact ih post inv acc v inv2 (fun p hp => hpre p (List.mem_cons_of_mem _ hp))
        hlen hn0 hpop
    · rw [if_neg hbusy]
      simp only [Bool.not_eq_true] at hbusy
      have hd₁ : now - it₁.last_requested < thr := by
        rw [shouldEvict, hbusy] at h₁
        simpa using h₁
      rw [if_pos hd₁]
      exact ih post inv acc v inv2 (fun p hp => hpre p (List.mem_cons_of_mem _ hp))
        hlen hn0 hpop

end EvictLemmas

section ContextLemmas

variable {α : Type}

theorem runSets_events_pos (sets : List (String × α)) :
    ∀ c : Context α, ∀ e ∈ (Context.runSets c sets).2, 0 < e.heldDepth := by
  induction sets with
  | nil =>
    intro c e he
    simp [Context.runSets] at he
  | cons hd tl ih =>
    obtain ⟨n, v⟩ := hd
    intro c e he
    simp only [Context.runSets, List.mem_append] at he
    rcases he with h1 | h2
    · by_cases hn : n = "_mutex"
      · simp [Context.setattr, hn] at h1
      · simp only [Context.setattr, if_neg hn, List.mem_singleton] at h1
        rw [h1]
        exact Nat.succ_pos _
    · exact ih _ e h2

theorem foldl_dictSet_keys_covered {a : String} :
    ∀ (props : List (String × α)) (d0 : List (String × CtxVal α)),
    a ∈ ((props.foldl (fun d p => dictSet d p.1 (CtxVal.user p.2)) d0).map
      Prod.fst) →
    a ∈ d0.map Prod.fst ∨ a ∈ props.map Prod.fst := by
  intro props
  induction props with
  | nil => exact fun d0 h => Or.inl h
  | cons p ps ih =>
    obtain ⟨n, v⟩ := p
    intro d0 h
    rw [List.foldl_cons] at h
    rcases ih (dictSet d0 n (CtxVal.user v)) h with h1 | h2
    · rcases mem_keys_dictSet h1 with rfl | h3
      · exact Or.inr (by simp)
      · exact Or.inl h3
    · exact Or.inr (by simp [h2])

theorem init_keys_covered {a : String} (props : List (String × α))
    (h : a ∈ (Context.init props).1.dict.map Prod.fst) :
    a ∈ props.map Prod.fst ∨ a = "MUTEX" ∨ a = "cache" := by
  have h' : a ∈ ((dictSet
      (dictSet (props.foldl (fun d p => dictSet d p.1 (CtxVal.user p.2)) [])
        "MUTEX" CtxVal.lockObj) "cache" CtxVal.cacheObj).map Prod.fst) := h
  rcases mem_keys_dictSet h' with rfl | h2
  · exact Or.inr (Or.inr rfl)
  · rcases mem_keys_dictSet h2 with rfl | h3
    · exact Or.inr (Or.inl rfl)
    · rcases foldl_dictSet_keys_covered props [] h3 with h4 | h5
      · simp at h4
      · exact Or.inl h5

theorem runSets_keys_covered {a : String} :
    ∀ (sets : List (String × α)) (c : Context α),
    a ∈ ((Context.runSets c sets).1.dict.map Prod.fst) →
    a ∈ c.dict.map Prod.fst ∨ a ∈ sets.map Prod.fst := by
  intro sets
  induction sets with
  | nil => exact fun c h => Or.inl h
  | cons hd tl ih =>
    obtain ⟨n, v⟩ := hd
    intro c h
    simp only [Context.runSets] at h
    rcases ih _ h with h1 | h2
    · by_cases hn : n = "_mutex"
      · simp only [Context.setattr, if_pos hn] at h1
        exact Or.inl h1
      · simp only [Context.setattr, if_neg hn] at h1
        rcases mem_keys_dictSet h1 with rfl | h3
        · exact Or.inr (by simp)
        · exact Or.inl h3
    · exact Or.inr (by simp [h2])

end ContextLemmas

section Claims

variable {κ α : Type} [DecidableEq κ]

/-- C1: for every inventory entry whose `busy` predicate is true at the time
of an `evict()` sweep, the sweep does not remove the entry from the
inventory and does not include its object in a returned evicted list,
regardless of how long the item has been idle (`now` is unconstrained). -/
theorem busy_item_survives_evict (g : α → Int) (now : Int) (c : Cache κ α)
    (k : κ) (it : Item α) (hnd : keysNodup c.inventory)
    (hmem : (k, it) ∈ c.inventory) (hbusy : Item.busy g it = true) :
    (k, it) ∈ (c.evict g now).2.inventory ∧
      ∀ lst, (c.evict g now).1 = Except.ok lst → it.object ∉ lst := by
  constructor
  · show (k, it) ∈ (evictLoop g c.eviction_threshold now c.inventory.length
      c.inventory c.inventory []).2
    exact evictLoop_mem_preserved g c.eviction_threshold now c.inventory.length
      k it (by simp [shouldEvict, hbusy]) c.inventory c.inventory []
      (fun it₂ h₂ => keysNodup_mem_unique hnd h₂ hmem) hmem
  · intro lst h
    have hb : 0 < g it.object - 2 := by
      simpa [Item.busy, Item.ref_count] using hbusy
    exact evictLoop_ok_not_busy_obj g c.eviction_threshold now
      c.inventory.length it.object hb c.inventory c.inventory []
      (by simp) lst h

/-- Witness for C1: a busy item (three runtime references, so
`ref_count = 1 > 0`) idle far beyond the threshold survives the sweep. -/
theorem busy_item_survives_evict_witness :
    ((0 : Nat), (⟨0, 9⟩ : Item Nat)) ∈
      ((⟨14400, [(0, ⟨0, 9⟩)]⟩ : Cache Nat Nat).evict (fun _ => 3)
        1000000).2.inventory ∧
    ∀ lst, ((⟨14400, [(0, ⟨0, 9⟩)]⟩ : Cache Nat Nat).evict (fun _ => 3)
        1000000).1 = Except.ok lst → (9 : Nat) ∉ lst :=
  busy_item_survives_evict (fun _ => 3) 1000000 ⟨14400, [(0, ⟨0, 9⟩)]⟩ 0 ⟨0, 9⟩
    (by decide) (by decide) (by decide)

/-- C2 (code bug): a single non-busy item idle exactly the threshold is
removed from the inventory by `evict()`, but the sweep then raises
`RuntimeError` (the live dict changed size during iteration) instead of
returning the evicted list, so the object is never returned to the caller. -/
theorem evict_expired_item_runtime_error :
    (⟨14400, [(0, ⟨0, 5⟩)]⟩ : Cache Nat Nat).evict (fun _ => 2) 14400
      = (Except.error PyErr.runtimeError, ⟨14400, []⟩) := by decide

/-- C3 counterexample: a non-busy item whose idle duration exactly equals
the eviction threshold (`100 - 0 = 100 = threshold`) IS removed by
`evict()`, contradicting the claim that exact equality is not evicted. -/
theorem threshold_equality_entry_removed :
    Item.busy (fun _ => 2) (⟨0, 7⟩ : Item Nat) = false ∧
    (100 : Int) - (⟨0, 7⟩ : Item Nat).last_requested
      = (⟨100, [(0, ⟨0, 7⟩)]⟩ : Cache Nat Nat).eviction_threshold ∧
    ((⟨100, [(0, ⟨0, 7⟩)]⟩ : Cache Nat Nat).evict  (fun _ => 2) 100).2.contains 0
      = false := by decide

/-- C3 amended: the sweep's comparison is `duration < threshold → skip, else
evict`: an entry with `now - last_requested < threshold` always survives the
sweep, and a non-busy entry with `threshold ≤ now - last_requested` that is
the first evictable entry in iteration order is removed (exact equality is
evicted, not kept). -/
theorem evict_threshold_comparison (g : α → Int) (now : Int) (c : Cache κ α)
    (k : κ) (it : Item α) (hnd : keysNodup c.inventory)
    (hmem : (k, it) ∈ c.inventory) :
    (now - it.last_requested < c.eviction_threshold →
      (k, it) ∈ (c.evict g now).2.inventory) ∧
    (∀ pre post, c.inventory = pre ++ (k, it) :: post →
      (∀ p ∈ pre, shouldEvict g c.eviction_threshold now p.2 = false) →
      Item.busy g it = false →
      c.eviction_threshold ≤ now - it.last_requested →
      (c.evict g now).2.contains k = false) := by
  constructor
  · intro hdur
    show (k, it) ∈ (evictLoop g c.eviction_threshold now c.inventory.length
      c.inventory c.inventory []).2
    exact evictLoop_mem_preserved g c.eviction_threshold now c.inventory.length
      k it (by simp [shouldEvict, hdur]) c.inventory c.inventory []
      (fun it₂ h₂ => keysNodup_mem_unique hnd h₂ hmem) hmem
  · intro pre post hdecomp hpre hb hge
    have hndd : keysNodup (pre ++ (k, it) :: post) := hdecomp ▸ hnd
    have hknp : k ∉ pre.map Prod.fst := by
      have := hndd
      simp only [keysNodup, List.map_append, List.map_cons] at this
      rw [List.nodup_append] at this
      intro hmem2
      exact this.2.2 hmem2 (List.mem_cons_self _ _)
    have hpop := dictPop_append_of_not_mem pre k it post hknp
    have hdur' : ¬ (now - it.last_requested < c.eviction_threshold) :=
      not_lt.mpr hge
    have hres : (c.evict g now).2.inventory = pre ++ post := by
      show (evictLoop g c.eviction_threshold now c.inventory.length
        c.inventory c.inventory []).2 = pre ++ post
      rw [hdecomp]
      exact evictLoop_first_evicted g c.eviction_threshold now
        (pre ++ (k, it) :: post).length k it hb hdur' pre post
        (pre ++ (k, it) :: post) [] it (pre ++ post) hpre rfl
        (by simp only [List.length_append, List.length_cons]; omega) hpop
    have hget : dictGet (pre ++ post) k = none :=
      dictPop_nodup_get_none hndd hpop
    rw [Cache.contains, hres, hget]
    rfl

/-- Witness for C3: both comparison directions at a concrete cache with a
fresh entry and an entry idle exactly the threshold. -/
theorem evict_threshold_comparison_witness :
    ((100 : Int) - (⟨0, 2⟩ : Item Nat).last_requested <
        (⟨100, [(5, ⟨80, 1⟩), (6, ⟨0, 2⟩)]⟩ : Cache Nat Nat).eviction_threshold →
      ((6 : Nat), (⟨0, 2⟩ : Item Nat)) ∈
        ((⟨100, [(5, ⟨80, 1⟩), (6, ⟨0, 2⟩)]⟩ : Cache Nat Nat).evict
          (fun _ => 2) 100).2.inventory) ∧
    (∀ pre post,
      (⟨100, [(5, ⟨80, 1⟩), (6, ⟨0, 2⟩)]⟩ : Cache Nat Nat).inventory
        = pre ++ ((6 : Nat), (⟨0, 2⟩ : Item Nat)) :: post →
      (∀ p ∈ pre, shouldEvict (fun _ => 2)
        (⟨100, [(5, ⟨80, 1⟩), (6, ⟨0, 2⟩)]⟩ : Cache Nat Nat).eviction_threshold
        100 p.2 = false) →
      Item.busy (fun _ => 2) (⟨0, 2⟩ : Item Nat) = false →
      (⟨100, [(5, ⟨80, 1⟩), (6, ⟨0, 2⟩)]⟩ : Cache Nat Nat).eviction_threshold
        ≤ (100 : Int) - (⟨0, 2⟩ : Item Nat).last_requested →
      ((⟨100, [(5, ⟨80, 1⟩), (6, ⟨0, 2⟩)]⟩ : Cache Nat Nat).evict
        (fun _ => 2) 100).2.contains 6 = false) :=
  evict_threshold_comparison (fun _ => 2) 100 ⟨100, [(5, ⟨80, 1⟩), (6, ⟨0, 2⟩)]⟩
    6 ⟨0, 2⟩ (by decide) (by decide)

/-- C4 (code bug): with one evictable (non-busy, idle past the threshold)
entry alongside another entry, `evict()` does not complete: the loop
iterates the live `_inventory.items()` view, `purge` shrinks the dict
mid-iteration, and the next iterator step raises `RuntimeError`. -/
theorem evict_live_iteration_runtime_error :
    (⟨14400, [(0, ⟨0, 10⟩), (1, ⟨14000, 11⟩)]⟩ : Cache Nat Nat).evict
        (fun _ => 2) 14400
      = (Except.error PyErr.runtimeError, ⟨14400, [(1, ⟨14000, 11⟩)]⟩) := by
  decide

/-- C5 counterexample: after `put(0, payload 7)`, `purge(0)` hands back the
`Item` wrapper (viewed dynamically, `itemObj 0 (payload 7)`), not the
payload `payload 7` that was passed to `put`. -/
theorem purge_returns_wrapper_not_payload :
    (((Cache.init none : Cache Nat PyObj).put 0 (PyObj.payload 7) 0).purge
        0).1.map Item.asPyObj = Except.ok (PyObj.itemObj 0 (PyObj.payload 7)) ∧
    (((Cache.init none : Cache Nat PyObj).put 0 (PyObj.payload 7) 0).purge
        0).1.map Item.asPyObj ≠ Except.ok (PyObj.payload 7) := by decide

/-- C5 amended: `purge(k)` on a present key removes the entry and returns
the inventory entry itself — the `Item` wrapping the payload (so after
`put(k, v)` it returns the item with `object = v`), not the bare payload —
and on an absent key fails with `KeyError` leaving the cache unchanged. -/
theorem purge_returns_inventory_item (c : Cache κ α) (k : κ) (v : α)
    (now : Int) (hnd : keysNodup c.inventory) :
    ((c.put k v now).purge k).1 = Except.ok ⟨now, v⟩ ∧
    ((c.put k v now).purge k).2.contains k = false ∧
    (∀ c2 : Cache κ α, c2.contains k = false →
      c2.purge k = (Except.error PyErr.keyError, c2)) := by
  obtain ⟨l', hl'⟩ := dictPop_dictSet_self c.inventory k (⟨now, v⟩ : Item α)
  have hnone : dictGet l' k = none :=
    dictPop_nodup_get_none (keysNodup_dictSet k _ hnd) hl'
  refine ⟨?_, ?_, ?_⟩
  · show (Cache.purge ⟨c.eviction_threshold,
      dictSet c.inventory k ⟨now, v⟩⟩ k).1 = Except.ok ⟨now, v⟩
    rw [Cache.purge]
    simp only [hl']
  · show (Cache.purge ⟨c.eviction_threshold,
      dictSet c.inventory k ⟨now, v⟩⟩ k).2.contains k = false
    rw [Cache.purge]
    simp only [hl', Cache.contains, hnone]
    rfl
  · intro c2 hc2
    have hg2 : dictGet c2.inventory k = none := by
      cases hopt : dictGet c2.inventory k with
      | none => rfl
      | some w =>
        rw [Cache.contains, hopt] at hc2
        exact absurd hc2 (by simp)
    rw [Cache.purge, dictPop_none_of_get_none hg2]

/-- Witness for C5: the amended behaviour at a concrete cache. -/
theorem purge_returns_inventory_item_witness :
    (((Cache.init none : Cache Nat Nat).put 3 9 7).purge 3).1
      = Except.ok ⟨7, 9⟩ ∧
    (((Cache.init none : Cache Nat Nat).put 3 9 7).purge 3).2.contains 3
      = false ∧
    (∀ c2 : Cache Nat Nat, c2.contains 3 = false →
      c2.purge 3 = (Except.error PyErr.keyError, c2)) :=
  purge_returns_inventory_item (Cache.init none) 3 9 7 (by decide)

/-- C6 (code bug): `get(0)` immediately after `put(0, 5)` does not return 5
when another cache entry is evictable: the eviction sweep that `get`
triggers raises `RuntimeError` (live dict mutated during iteration), and
the error propagates out of `get`, even though key 0 itself was neither
evicted nor overwritten. -/
theorem get_after_put_sweep_runtime_error :
    ((⟨14400, [(1, ⟨0, 11⟩)]⟩ : Cache Nat Nat).put 0 5 14400).get
        (fun _ => 2) 14400 0
      = (Except.error PyErr.runtimeError, ⟨14400, [(0, ⟨14400, 5⟩)]⟩) := by
  decide

/-- C7: `get` on a key absent from the inventory fails with the NotFound
error (`LookupError`); it never produces a value. -/
theorem get_absent_lookup_error (c : Cache κ α) (g : α → Int) (now : Int)
    (key : κ) (h : c.contains key = false) :
    (c.get g now key).1 = Except.error PyErr.lookupError := by
  have hnone : dictGet c.inventory key = none := by
    cases hopt : dictGet c.inventory key with
    | none => rfl
    | some w =>
      rw [Cache.contains, hopt] at h
      exact absurd h (by simp)
  rw [Cache.get, hnone]

/-- Witness for C7: a concrete absent key. -/
theorem get_absent_lookup_error_witness :
    (((⟨14400, [(1, ⟨0, 5⟩)]⟩ : Cache Nat Nat).get (fun _ => 2) 50 2).1
      = Except.error PyErr.lookupError) :=
  get_absent_lookup_error ⟨14400, [(1, ⟨0, 5⟩)]⟩ (fun _ => 2) 50 2 (by decide)

/-- C10: a failed `get` (absent key) leaves the cache state completely
unchanged — the `LookupError` is raised before `touch` and before the
eviction sweep, so no timestamp moves and no entry is removed. -/
theorem get_absent_state_unchanged (c : Cache κ α) (g : α → Int) (now : Int)
    (key : κ) (h : dictGet c.inventory key = none) :
    c.get g now key = (Except.error PyErr.lookupError, c) := by
  rw [Cache.get, h]

/-- Witness for C10: a concrete absent key, full state equality. -/
theorem get_absent_state_unchanged_witness :
    (⟨100, [(4, ⟨2, 8⟩)]⟩ : Cache Nat Nat).get (fun _ => 2) 9 9
      = (Except.error PyErr.lookupError, ⟨100, [(4, ⟨2, 8⟩)]⟩) :=
  get_absent_state_unchanged ⟨100, [(4, ⟨2, 8⟩)]⟩ (fun _ => 2) 9 9 (by decide)

/-- C8 counterexample: it is not the case that every property write goes
through the lock-acquiring path: the construction-time writes (the initial
property `x`, then `MUTEX`, then `cache`) are raw `__dict__` writes made
with mutex hold depth 0. -/
theorem context_init_writes_bypass_mutex :
    ¬ (∀ e ∈ (Context.init [("x", (3 : Nat))]).2
        ++ (Context.runSets (Context.init [("x", (3 : Nat))]).1 [("y", 4)]).2,
        0 < e.heldDepth) := by decide

/-- C8 amended: writes made through `__setattr__` after construction all
happen with the mutex held (depth at least 1), but the construction-time
writes — the initial properties and the reserved `MUTEX` and `cache`
entries — are raw `__dict__` writes that bypass the locking path entirely
(depth 0; the mutex does not even exist until it is created). -/
theorem context_write_lock_discipline (props sets : List (String × α)) :
    (∀ e ∈ (Context.init props).2, e.heldDepth = 0) ∧
    (∀ e ∈ (Context.runSets (Context.init props).1 sets).2,
      0 < e.heldDepth) := by
  constructor
  · intro e he
    have he' : e ∈ props.map (fun p => (⟨p.1, 0⟩ : WriteEvent))
        ++ [⟨"MUTEX", 0⟩, ⟨"cache", 0⟩] := he
    simp only [List.mem_append, List.mem_map, List.mem_cons,
      List.not_mem_nil, or_false] at he'
    rcases he' with ⟨p, _, rfl⟩ | rfl | rfl
    · rfl
    · rfl
    · rfl
  · exact runSets_events_pos sets (Context.init props).1

/-- C9 counterexample: the name `_mutex` is never set on a fresh context
(it is not among the construction names `MUTEX` and `cache` and no later
set occurs), yet reading it does not raise `AttributeError` — the class's
`_mutex` property returns the mutex object. -/
theorem mutex_attribute_readable_without_set :
    ("_mutex" ∉ (([] : List (String × Nat)).map Prod.fst)) ∧
    "_mutex" ≠ "MUTEX" ∧ "_mutex" ≠ "cache" ∧
    Context.getattr (Context.init ([] : List (String × Nat))).1 "_mutex"
      ≠ Except.error PyErr.attributeError := by decide

/-- C9 amended: reading a property name that was never set — neither among
the construction-time names (initial properties, `MUTEX`, `cache`) nor by a
later set — fails with `AttributeError`, except for the class-defined
property name `_mutex`, which is readable without ever being set. -/
theorem context_getattr_never_set_fails (props sets : List (String × α))
    (name : String) (h1 : name ∉ props.map Prod.fst)
    (h2 : name ∉ sets.map Prod.fst) (h3 : name ≠ "MUTEX")
    (h4 : name ≠ "cache") (h5 : name ≠ "_mutex") :
    Context.getattr (Context.runSets (Context.init props).1 sets).1 name
      = Except.error PyErr.attributeError := by
  have hkeys : name ∉
      ((Context.runSets (Context.init props).1 sets).1.dict.map Prod.fst) := by
    intro hmem
    rcases runSets_keys_covered sets _ hmem with hin | hsets
    · rcases init_keys_covered props hin with hp | rfl | rfl
      · exact h1 hp
      · exact h3 rfl
      · exact h4 rfl
    · exact h2 hsets
  rw [Context.getattr, if_neg h5, dictGet_none_of_not_mem_keys hkeys]

/-- Witness for C9: the never-set name `token` on a context built with one
initial property and one later set. -/
theorem context_getattr_never_set_fails_witness :
    Context.getattr
        (Context.runSets (Context.init [("a", (1 : Nat))]).1 [("b", 2)]).1
        "token"
      = Except.error PyErr.attributeError :=
  context_getattr_never_set_fails [("a", 1)] [("b", 2)] "token"
    (by decide) (by decide) (by decide) (by decide) (by decide)

end Claims

end Pulp
